import Mathlib

/-
Verification of the synchronization pipeline of the school-database sync
tool (src/sync.py).  The development shallowly embeds the pure data
handling (payload construction, JSON encoding shape, batching engine) and
the network-facing control flow (bulk path, legacy batched path with
retries, orchestrator fallback) and proves the documented properties.

Network effects are modelled by a transport oracle `tr : Nat → Outcome`
giving the outcome of the n-th HTTP request of the run, together with an
explicit trace of the requests issued, threaded through every function in
program order exactly as the Python code issues them.
-/

/-- Scalar field values appearing in records: JSON primitives plus the two
non-primitive types the custom encoder handles (arbitrary-precision
decimals, calendar dates / datetimes rendered as ISO strings).
`DecimalEncoder` (sync.py lines 16-24) converts decimals to floats; the
numeric value is modelled exactly as a rational, which is faithful for
every structural property (the claims never depend on float rounding). -/
inductive Scalar where
  | null
  | b (v : Bool)
  | s (v : String)
  | i (v : Int)
  | dec (v : ℚ)
  | date (iso : String)
  | dt (iso : String)
deriving DecidableEq

/-- A database record: an ordered mapping field name → scalar value, as
built by `dict(zip(columns, row))` in sync.py line 164. -/
abbrev Record := List (String × Scalar)

/-- JSON document tree produced by `json.dumps(..., cls=DecimalEncoder)`.
Object fields keep insertion order, as Python dicts do. -/
inductive Json where
  | null
  | bool (v : Bool)
  | num (q : ℚ)
  | str (v : String)
  | arr (elems : List Json)
  | obj (fields : List (String × Json))

/-- Encoding of one scalar by the standard JSON encoder extended with
`DecimalEncoder` (sync.py lines 16-24): decimals become numbers (floats),
dates and datetimes become their ISO-8601 strings. -/
def encodeScalar : Scalar → Json
  | Scalar.null => Json.null
  | Scalar.b v => Json.bool v
  | Scalar.s v => Json.str v
  | Scalar.i v => Json.num (v : ℚ)
  | Scalar.dec v => Json.num v
  | Scalar.date iso => Json.str iso
  | Scalar.dt iso => Json.str iso

/-- A record encodes to a JSON object, field order preserved. -/
def encodeRecord (r : Record) : Json :=
  Json.obj (r.map (fun p => (p.1, encodeScalar p.2)))

/-- The per-table record lists encode to a JSON object mapping table name
to an array of record objects. -/
def encodeTables (tables : List (String × List Record)) : Json :=
  Json.obj (tables.map (fun p => (p.1, Json.arr (p.2.map encodeRecord))))

/-- The bulk-sync payload built in sync.py lines 292-298. -/
structure BulkPayload where
  database : String
  tables : List (String × List Record)
  total_records : Nat
  sync_timestamp : String
deriving DecidableEq

/-- Line 288: `total_records = sum(len(table_data) for table_data in data.values())`. -/
def totalRecords (data : List (String × List Record)) : Nat :=
  (data.map (fun p => p.2.length)).sum

/-- Lines 292-298: the payload sent to the bulk endpoint.  The target
database name is hardcoded; the timestamp is an input of the run. -/
def mkBulkPayload (data : List (String × List Record)) (ts : String) : BulkPayload :=
  { database := "safa"
    tables := data
    total_records := totalRecords data
    sync_timestamp := ts }

/-- Line 302: `json.dumps(payload, cls=DecimalEncoder)`, modelled up to the
JSON document tree (the byte rendering of a tree is injective on the
structure the claims speak about). -/
def encodePayload (p : BulkPayload) : Json :=
  Json.obj [("database", Json.str p.database),
            ("tables", encodeTables p.tables),
            ("total_records", Json.num (p.total_records : ℚ)),
            ("sync_timestamp", Json.str p.sync_timestamp)]

/-- First-match lookup in a JSON object field list (Python dict access). -/
def jsonLookup (fields : List (String × Json)) (key : String) : Option Json :=
  match fields with
  | [] => none
  | (k, v) :: rest => if k = key then some v else jsonLookup rest key

/-- Field access on an encoded document. -/
def jsonField (j : Json) (key : String) : Option Json :=
  match j with
  | Json.obj fields => jsonLookup fields key
  | _ => none

/-- Length of an encoded array (used to recount records after encoding). -/
def jsonArrLen : Json → Nat
  | Json.arr elems => elems.length
  | _ => 0

/-- Sum of the record-array lengths inside the "tables" member of an
encoded payload: the record count an observer of the wire format sees. -/
def jsonTablesRecordTotal (j : Json) : Option Nat :=
  match jsonField j "tables" with
  | some (Json.obj tfields) => some ((tfields.map (fun p => jsonArrLen p.2)).sum)
  | _ => none

/-- Line 313: `timeout = max(300, total_records // 1000 * 10)`. -/
def timeoutFor (total_records : Nat) : Nat :=
  max 300 (total_records / 1000 * 10)

/- ---------------------------------------------------------------------
Batching engine: `chunk_data` (sync.py lines 427-429)

    def chunk_data(data_list, chunk_size=BATCH_SIZE):
        for i in range(0, len(data_list), chunk_size):
            yield data_list[i:i + chunk_size]

`range` with a zero step raises ValueError (modelled as `none`); with a
negative step and a non-negative stop it is empty.  The generator is
modelled as the materialized list of its elements, which is how the
caller consumes it (`list(chunk_data(...))`, line 442).
--------------------------------------------------------------------- -/

/-- Ascending `range(start, stop, step)` for a positive step, implemented
with explicit fuel to stay structurally recursive.  Each iteration
advances `start` by `step ≥ 1`, so `(stop - start).toNat` units of fuel
always suffice to enumerate the whole range. -/
def rangeUpFuel (fuel : Nat) (start stop : Int) (step : Nat) : List Int :=
  match fuel with
  | 0 => []
  | f + 1 =>
    if start < stop ∧ 0 < step then start :: rangeUpFuel f (start + step) stop step
    else []

/-- Descending `range(start, stop, step)` for a negative step (of absolute
value `step`), with the same fuel discipline. -/
def rangeDownFuel (fuel : Nat) (start stop : Int) (step : Nat) : List Int :=
  match fuel with
  | 0 => []
  | f + 1 =>
    if stop < start ∧ 0 < step then start :: rangeDownFuel f (start - step) stop step
    else []

/-- Python `range(start, stop, step)` with `step > 0`. -/
def rangeUp (start stop : Int) (step : Nat) : List Int :=
  rangeUpFuel (stop - start).toNat start stop step

/-- Python `range(start, stop, step)` with `step < 0` (absolute value given). -/
def rangeDown (start stop : Int) (step : Nat) : List Int :=
  rangeDownFuel (start - stop).toNat start stop step

/-- Python `range(start, stop, step)`; `none` models the ValueError raised
for a zero step. -/
def pyRange (start stop step : Int) : Option (List Int) :=
  if 0 < step then some (rangeUp start stop step.toNat)
  else if step < 0 then some (rangeDown start stop (-step).toNat)
  else none

/-- Python slice `l[a:b]` for non-negative bounds (the only ones
`chunk_data` produces): clamped, never raising. -/
def pySlice (l : List α) (a b : Nat) : List α :=
  (l.take b).drop a

/-- sync.py lines 427-429.  `none` models the ValueError raised when the
generator is iterated with a zero chunk size. -/
def chunk_data (data_list : List α) (chunk_size : Int) : Option (List (List α)) :=
  (pyRange 0 (data_list.length : Int) chunk_size).map
    (fun idxs => idxs.map (fun i => pySlice data_list i.toNat (i + chunk_size).toNat))

/-- Reference recursion for positive-size chunking: repeatedly take `s`
elements.  Proved equal to `chunk_data` for positive sizes below; the
chunking properties are established against this recursion. -/
def chunksRec (s : Nat) (l : List α) : List (List α) :=
  match s, l with
  | _, [] => []
  | 0, _ => []
  | s2 + 1, a :: l2 =>
    (a :: l2).take (s2 + 1) :: chunksRec (s2 + 1) ((a :: l2).drop (s2 + 1))
termination_by l.length
decreasing_by
  simp only [List.length_drop, List.length_cons]
  omega

theorem chunksRec_nil (s : Nat) : chunksRec s ([] : List α) = [] := by
  cases s <;> simp [chunksRec]

theorem chunksRec_zero (l : List α) : chunksRec 0 l = [] := by
  cases l <;> simp [chunksRec]

theorem chunksRec_cons (s : Nat) (l : List α) (hs : s ≠ 0) (hl : l ≠ []) :
    chunksRec s l = l.take s :: chunksRec s (l.drop s) := by
  cases s with
  | zero => exact absurd rfl hs
  | succ s2 =>
    cases l with
    | nil => exact absurd rfl hl
    | cons a l2 => rw [chunksRec]

theorem chunksRec_ne_nil (s : Nat) (l : List α) (hs : s ≠ 0) (hl : l ≠ []) :
    chunksRec s l ≠ [] := by
  rw [chunksRec_cons s l hs hl]
  exact List.cons_ne_nil _ _

/-- Concatenating the chunks reproduces the input list. -/
theorem chunksRec_join (s : Nat) (hs : 0 < s) (l : List α) :
    (chunksRec s l).flatten = l := by
  have H : ∀ n (l2 : List α), l2.length ≤ n → (chunksRec s l2).flatten = l2 := by
    intro n
    induction n with
    | zero =>
      intro l2 h
      have h0 : l2 = [] := List.length_eq_zero.mp (Nat.le_zero.mp h)
      simp [h0, chunksRec_nil]
    | succ n ih =>
      intro l2 h
      rcases eq_or_ne l2 [] with hnil | hnil
      · simp [hnil, chunksRec_nil]
      · rw [chunksRec_cons s l2 hs.ne' hnil]
        have hpos : 0 < l2.length := List.length_pos.mpr hnil
        have hlen : (l2.drop s).length ≤ n := by
          simp only [List.length_drop]; omega
        show l2.take s ++ (chunksRec s (l2.drop s)).flatten = l2
        rw [ih (l2.drop s) hlen, List.take_append_drop]
  exact H l.length l le_rfl

/-- The number of chunks is the ceiling of length / size. -/
theorem chunksRec_length (s : Nat) (hs : 0 < s) (l : List α) :
    (chunksRec s l).length = (l.length + s - 1) / s := by
  have H : ∀ n (l2 : List α), l2.length ≤ n →
      (chunksRec s l2).length = (l2.length + s - 1) / s := by
    intro n
    induction n with
    | zero =>
      intro l2 h
      have h0 : l2 = [] := List.length_eq_zero.mp (Nat.le_zero.mp h)
      rw [h0]
      simp only [chunksRec_nil, List.length_nil]
      rw [Nat.div_eq_of_lt (by omega)]
    | succ n ih =>
      intro l2 h
      rcases eq_or_ne l2 [] with hnil | hnil
      · rw [hnil]
        simp only [chunksRec_nil, List.length_nil]
        rw [Nat.div_eq_of_lt (by omega)]
      · rw [chunksRec_cons s l2 hs.ne' hnil]
        have hpos : 0 < l2.length := List.length_pos.mpr hnil
        simp only [List.length_cons]
        rw [ih (l2.drop s) (by simp only [List.length_drop]; omega)]
        simp only [List.length_drop]
        rcases le_or_lt l2.length s with hls | hls
        · have e1 : l2.length - s + s - 1 = s - 1 := by omega
          rw [e1, Nat.div_eq_of_lt (by omega)]
          have e2 : l2.length + s - 1 = (l2.length - 1) + s := by omega
          rw [e2, Nat.add_div_right _ hs, Nat.div_eq_of_lt (by omega)]
        · have e1 : l2.length - s + s - 1 = l2.length - 1 := by omega
          have e2 : l2.length + s - 1 = (l2.length - 1) + s := by omega
          rw [e1, e2, Nat.add_div_right _ hs]
  exact H l.length l le_rfl

/-- Every chunk except possibly the last has length exactly the chunk size. -/
theorem chunksRec_dropLast_length (s : Nat) (hs : 0 < s) (l : List α) :
    ∀ c ∈ (chunksRec s l).dropLast, c.length = s := by
  have H : ∀ n (l2 : List α), l2.length ≤ n →
      ∀ c ∈ (chunksRec s l2).dropLast, c.length = s := by
    intro n
    induction n with
    | zero =>
      intro l2 h
      have h0 : l2 = [] := List.length_eq_zero.mp (Nat.le_zero.mp h)
      simp [h0, chunksRec_nil]
    | succ n ih =>
      intro l2 h
      rcases eq_or_ne l2 [] with hnil | hnil
      · simp [hnil, chunksRec_nil]
      · rw [chunksRec_cons s l2 hs.ne' hnil]
        have hpos : 0 < l2.length := List.length_pos.mpr hnil
        rcases eq_or_ne (l2.drop s) [] with hd | hd
        · simp [hd, chunksRec_nil]
        · rw [List.dropLast_cons_of_ne_nil (chunksRec_ne_nil s (l2.drop s) hs.ne' hd)]
          intro c hc
          rcases List.mem_cons.mp hc with hc1 | hc2
          · subst hc1
            have hsle : s ≤ l2.length := by
              by_contra hcon
              exact hd (List.drop_eq_nil_of_le (by omega))
            simp [List.length_take]
            omega
          · exact ih (l2.drop s) (by simp only [List.length_drop]; omega) c hc2
  exact H l.length l le_rfl

/-- Every chunk is non-empty and no longer than the chunk size. -/
theorem chunksRec_mem_length (s : Nat) (hs : 0 < s) (l : List α) :
    ∀ c ∈ chunksRec s l, 1 ≤ c.length ∧ c.length ≤ s := by
  have H : ∀ n (l2 : List α), l2.length ≤ n →
      ∀ c ∈ chunksRec s l2, 1 ≤ c.length ∧ c.length ≤ s := by
    intro n
    induction n with
    | zero =>
      intro l2 h
      have h0 : l2 = [] := List.length_eq_zero.mp (Nat.le_zero.mp h)
      simp [h0, chunksRec_nil]
    | succ n ih =>
      intro l2 h
      rcases eq_or_ne l2 [] with hnil | hnil
      · simp [hnil, chunksRec_nil]
      · rw [chunksRec_cons s l2 hs.ne' hnil]
        have hpos : 0 < l2.length := List.length_pos.mpr hnil
        intro c hc
        rcases List.mem_cons.mp hc with hc1 | hc2
        · subst hc1
          simp [List.length_take]
          omega
        · exact ih (l2.drop s) (by simp only [List.length_drop]; omega) c hc2
  exact H l.length l le_rfl

/-- Key simulation: mapping Python slices over the ascending range indices
computes exactly the reference chunking of the suffix `l.drop i`, as long
as the fuel covers the remaining length. -/
theorem rangeUpFuel_map_slice (s : Nat) (hs : 0 < s) (l : List α) :
    ∀ (fuel i : Nat), l.length - i ≤ fuel →
      (rangeUpFuel fuel (i : Int) (l.length : Int) s).map
          (fun j => pySlice l j.toNat (j + (s : Int)).toNat)
        = chunksRec s (l.drop i) := by
  intro fuel
  induction fuel with
  | zero =>
    intro i hle
    have hge : l.length ≤ i := by omega
    simp [rangeUpFuel, List.drop_eq_nil_of_le hge, chunksRec_nil]
  | succ f ih =>
    intro i hle
    by_cases hlt : i < l.length
    · have hcond : (i : Int) < (l.length : Int) ∧ 0 < s := ⟨by exact_mod_cast hlt, hs⟩
      rw [rangeUpFuel, if_pos hcond]
      have hcast : (i : Int) + (s : Int) = ((i + s : Nat) : Int) := by push_cast; ring
      rw [List.map_cons, hcast]
      rw [ih (i + s) (by omega)]
      have hdrop_ne : l.drop i ≠ [] := by
        intro hcon
        have := congrArg List.length hcon
        simp only [List.length_drop, List.length_nil] at this
        omega
      rw [chunksRec_cons s (l.drop i) hs.ne' hdrop_ne]
      congr 1
      · show pySlice l ((i : Int)).toNat (((i + s : Nat) : Int)).toNat = (l.drop i).take s
        rw [Int.toNat_natCast, Int.toNat_natCast]
        show (l.take (i + s)).drop i = (l.drop i).take s
        rw [List.drop_take]
        congr 1
        omega
      · rw [List.drop_drop]
    · have hge : l.length ≤ i := by omega
      have hcond : ¬((i : Int) < (l.length : Int) ∧ 0 < s) := by
        intro hcon
        have : i < l.length := by exact_mod_cast hcon.1
        omega
      rw [rangeUpFuel, if_neg hcond]
      simp [List.drop_eq_nil_of_le hge, chunksRec_nil]

/-- For a positive chunk size, `chunk_data` succeeds and computes the
reference chunking. -/
theorem chunk_data_pos_spec (l : List α) (S : Int) (hS : 0 < S) :
    chunk_data l S = some (chunksRec S.toNat l) := by
  have hs : 0 < S.toNat := by omega
  have hSv : ((S.toNat : Nat) : Int) = S := Int.toNat_of_nonneg hS.le
  unfold chunk_data pyRange rangeUp
  rw [if_pos hS]
  simp only [Option.map_some']
  congr 1
  have h0 : ((l.length : Int) - 0).toNat = l.length := by omega
  have hfun : (fun i => pySlice l i.toNat (i + S).toNat)
      = (fun j : Int => pySlice l j.toNat (j + ((S.toNat : Nat) : Int)).toNat) := by
    funext j
    rw [hSv]
  rw [h0, hfun]
  have h00 : (0 : Int) = ((0 : Nat) : Int) := rfl
  rw [h00, rangeUpFuel_map_slice S.toNat hs l l.length 0 (by omega)]
  simp

/-- Chunk size zero: Python `range` raises ValueError when iterated. -/
theorem chunk_data_zero (l : List α) : chunk_data l 0 = none := by
  simp [chunk_data, pyRange]

/-- Negative chunk size: the descending range from 0 up to a non-negative
stop is empty, so the generator silently yields nothing. -/
theorem chunk_data_neg (l : List α) (S : Int) (hS : S < 0) :
    chunk_data l S = some [] := by
  unfold chunk_data pyRange rangeDown
  rw [if_neg (by omega), if_pos hS]
  have h0 : ((0 : Int) - (l.length : Int)).toNat = 0 := by omega
  rw [h0]
  simp [rangeDownFuel]

/- ---------------------------------------------------------------------
Legacy batch payloads (sync.py lines 444-457)

    for chunk_index, chunk in enumerate(chunks, 1):
        is_first_batch = (chunk_index == 1)
        is_last_batch = (chunk_index == len(chunks))
        payload = {"database": target_database, "table": table_name,
                   "data": chunk, "is_first_batch": is_first_batch,
                   "is_last_batch": is_last_batch}
--------------------------------------------------------------------- -/

/-- One per-batch payload of the legacy `/api/sync/` endpoint. -/
structure LegacyBatchPayload where
  database : String
  table : String
  data : List Record
  is_first_batch : Bool
  is_last_batch : Bool
deriving DecidableEq

/-- Lines 444-457: the batch payloads for one table, in order, with the
1-based `enumerate(chunks, 1)` index deciding the positional flags. -/
def mkLegacyPayloads (table_name : String) (chunks : List (List Record)) :
    List LegacyBatchPayload :=
  (List.enumFrom 1 chunks).map (fun p =>
    { database := "safa"
      table := table_name
      data := p.2
      is_first_batch := decide (p.1 = 1)
      is_last_batch := decide (p.1 = chunks.length) })

theorem mkLegacyPayloads_length (table_name : String) (chunks : List (List Record)) :
    (mkLegacyPayloads table_name chunks).length = chunks.length := by
  simp [mkLegacyPayloads]

/-- Indices strictly above 1 never set the first-batch flag. -/
theorem enumFrom_first_flag {β : Type} :
    ∀ (cs : List β) (start : Nat), 2 ≤ start →
      (List.enumFrom start cs).map (fun p => decide (p.1 = 1))
        = List.replicate cs.length false := by
  intro cs
  induction cs with
  | nil => intro start _; simp
  | cons c cs2 ih =>
    intro start h2
    rw [show List.enumFrom start (c :: cs2) = (start, c) :: List.enumFrom (start + 1) cs2
        from rfl]
    rw [List.map_cons, List.length_cons, List.replicate_succ]
    congr 1
    · simp
      omega
    · exact ih (start + 1) (by omega)

/-- When the index range ends exactly at `k`, the last-batch test is false
everywhere except at the final position. -/
theorem enumFrom_last_flag {β : Type} :
    ∀ (cs : List β) (start k : Nat), start + cs.length = k + 1 → cs ≠ [] →
      (List.enumFrom start cs).map (fun p => decide (p.1 = k))
        = List.replicate (cs.length - 1) false ++ [true] := by
  intro cs
  induction cs with
  | nil => intro _ _ _ h; exact absurd rfl h
  | cons c cs2 ih =>
    intro start k hsum _
    cases cs2 with
    | nil =>
      have hk : start = k := by simp at hsum; omega
      simp [List.enumFrom, hk]
    | cons c2 cs3 =>
      have hne : start ≠ k := by simp at hsum ⊢; omega
      rw [show List.enumFrom start (c :: c2 :: cs3)
            = (start, c) :: List.enumFrom (start + 1) (c2 :: cs3) from rfl]
      rw [List.map_cons]
      have hrep : (c :: c2 :: cs3).length - 1 = cs3.length + 1 := by simp
      rw [hrep, List.replicate_succ, List.cons_append]
      congr 1
      · simp [hne]
      · have := ih (start + 1) k (by simp at hsum ⊢; omega) (by simp)
        simpa using this

/-- The first-batch flags down a table's payload list: true exactly once,
at the head. -/
theorem mkLegacyPayloads_first (table_name : String) (chunks : List (List Record))
    (hne : chunks ≠ []) :
    (mkLegacyPayloads table_name chunks).map (fun b => b.is_first_batch)
      = true :: List.replicate (chunks.length - 1) false := by
  cases chunks with
  | nil => exact absurd rfl hne
  | cons c cs =>
    simp only [mkLegacyPayloads, List.map_map]
    rw [show List.enumFrom 1 (c :: cs) = (1, c) :: List.enumFrom 2 cs from rfl]
    rw [List.map_cons]
    have htail : ∀ p : Nat × List Record,
        ((fun b => b.is_first_batch) ∘ (fun p : Nat × List Record =>
          ({ database := "safa", table := table_name, data := p.2,
             is_first_batch := decide (p.1 = 1),
             is_last_batch := decide (p.1 = (c :: cs).length) } : LegacyBatchPayload))) p
        = decide (p.1 = 1) := fun _ => rfl
    rw [List.map_congr_left (fun p _ => htail p)]
    rw [enumFrom_first_flag cs 2 (by omega)]
    simp

/-- The last-batch flags down a table's payload list: true exactly once,
at the final position. -/
theorem mkLegacyPayloads_last (table_name : String) (chunks : List (List Record))
    (hne : chunks ≠ []) :
    (mkLegacyPayloads table_name chunks).map (fun b => b.is_last_batch)
      = List.replicate (chunks.length - 1) false ++ [true] := by
  simp only [mkLegacyPayloads, List.map_map]
  have htail : ∀ p : Nat × List Record,
      ((fun b => b.is_last_batch) ∘ (fun p : Nat × List Record =>
        ({ database := "safa", table := table_name, data := p.2,
           is_first_batch := decide (p.1 = 1),
           is_last_batch := decide (p.1 = chunks.length) } : LegacyBatchPayload))) p
      = decide (p.1 = chunks.length) := fun _ => rfl
  rw [List.map_congr_left (fun p _ => htail p)]
  exact enumFrom_last_flag chunks 1 chunks.length (by omega) hne

/- ---------------------------------------------------------------------
Network model.

Every HTTP request of a run is numbered in program order; a transport
oracle `tr : Nat → Outcome` fixes the outcome of the n-th request.
`Outcome.err` models any raised transport exception (connection error,
timeout, unparsable body); `Outcome.ok status success` models a completed
response with the given status code whose parsed body has the given
truthiness of `response_data.get('success', False)`.  The state carries
the trace of issued requests; its length is the request counter.
--------------------------------------------------------------------- -/

/-- Outcome of one HTTP request. -/
inductive Outcome where
  | err
  | ok (status : Nat) (success : Bool)
deriving DecidableEq

/-- The requests the tool can issue, tagged by endpoint and payload. -/
inductive Request where
  | resetSession
  | bulkSync (payload : BulkPayload)
  | legacySync (payload : LegacyBatchPayload)
deriving DecidableEq

/-- Run state: the trace of requests issued so far, in order. -/
structure SyncState where
  trace : List Request
deriving DecidableEq

/-- State at the start of a run: no requests issued. -/
def initState : SyncState := ⟨[]⟩

/-- Issue one HTTP request: its outcome is the oracle's value at the
current request counter, and the request is appended to the trace. -/
def send (tr : Nat → Outcome) (r : Request) (st : SyncState) : Outcome × SyncState :=
  (tr st.trace.length, ⟨st.trace ++ [r]⟩)

def isResetReq : Request → Bool
  | Request.resetSession => true
  | _ => false

def isBulkReq : Request → Bool
  | Request.bulkSync _ => true
  | _ => false

def isLegacyReq : Request → Bool
  | Request.legacySync _ => true
  | _ => false

/-- Acceptance test the bulk path actually performs (lines 334, 341):
the request completed, the status code is exactly 200, and the body's
success flag is true. -/
def outcomeOk200 : Outcome → Bool
  | Outcome.err => false
  | Outcome.ok status success => decide (status = 200) && success

/-- Acceptance test the specification text describes: any 2xx status. -/
def outcomeOk2xx : Outcome → Bool
  | Outcome.err => false
  | Outcome.ok status success => (decide (200 ≤ status) && decide (status ≤ 299)) && success

/-- `reset_sync_session` (sync.py lines 234-260): one POST, 200 ↦ True,
any other status ↦ False, any exception ↦ False; never raises. -/
def reset_sync_session (tr : Nat → Outcome) (st : SyncState) : Bool × SyncState :=
  match send tr Request.resetSession st with
  | (Outcome.err, st2) => (false, st2)
  | (Outcome.ok status _, st2) => (decide (status = 200), st2)

/-- `sync_data_bulk_optimized` (sync.py lines 263-400): reset the session
(result ignored), then send the whole payload once; succeed only on a
status-200 response whose body has success=true; every other outcome —
exception, non-200 status, or success=false — returns False with no
retry. -/
def sync_data_bulk_optimized (tr : Nat → Outcome) (data : List (String × List Record))
    (ts : String) (st : SyncState) : Bool × SyncState :=
  match send tr (Request.bulkSync (mkBulkPayload data ts)) (reset_sync_session tr st).2 with
  | (Outcome.err, st2) => (false, st2)
  | (Outcome.ok status success, st2) =>
    if status = 200 then (success, st2) else (false, st2)

/-- The `for retry in range(3)` loop of sync.py lines 461-492, one batch:
each iteration sends the batch payload; a 200 response with success=true
breaks out successfully; a 200 response with success=false, a non-200
status, or an exception all just consume the attempt. -/
def attemptLoop (tr : Nat → Outcome) (p : LegacyBatchPayload) :
    Nat → SyncState → Bool × SyncState
  | 0, st => (false, st)
  | f + 1, st =>
    match send tr (Request.legacySync p) st with
    | (Outcome.err, st2) => attemptLoop tr p f st2
    | (Outcome.ok status success, st2) =>
      if status = 200 then
        if success then (true, st2) else attemptLoop tr p f st2
      else attemptLoop tr p f st2

/-- One batch gets up to 3 delivery attempts (line 462: `range(3)`). -/
def attemptBatch (tr : Nat → Outcome) (p : LegacyBatchPayload) (st : SyncState) :
    Bool × SyncState :=
  attemptLoop tr p 3 st

/-- The per-batch loop of one table (lines 444-501): batches in order; a
batch whose 3 attempts are exhausted returns False immediately
(line 497-501), abandoning the remaining batches. -/
def runBatches (tr : Nat → Outcome) :
    List LegacyBatchPayload → SyncState → Bool × SyncState
  | [], st => (true, st)
  | p :: rest, st =>
    match attemptBatch tr p st with
    | (true, st2) => runBatches tr rest st2
    | (false, st2) => (false, st2)

/-- Line 420-421: the fixed declared table order of the legacy path. -/
def tables_to_sync : List String :=
  ["acc_users", "personel", "mag_subject", "cce_assessmentitems", "cce_entry"]

/-- Python `data[table_name]` guarded by `table_name in data`, the data
dict modelled as an association list with unique keys. -/
def lookupTable (data : List (String × List Record)) (name : String) :
    Option (List Record) :=
  List.lookup name data

/-- The per-table loop of `sync_data_to_api_legacy` (lines 431-508):
tables absent from the fetched data are skipped silently; tables with no
records are skipped and logged (lines 434-437); otherwise the table is
chunked into 3000-record batches and delivered, and a failed table stops
the whole run with False.  A `chunk_data` error (impossible for the
hardcoded size 3000) would propagate to the enclosing handler, which
returns False (lines 510-514). -/
def syncTablesLoop (tr : Nat → Outcome) (data : List (String × List Record)) :
    List String → SyncState → Bool × SyncState
  | [], st => (true, st)
  | name :: rest, st =>
    match lookupTable data name with
    | none => syncTablesLoop tr data rest st
    | some table_data =>
      if table_data.isEmpty then syncTablesLoop tr data rest st
      else
        match chunk_data table_data 3000 with
        | none => (false, st)
        | some chunks =>
          match runBatches tr (mkLegacyPayloads name chunks) st with
          | (true, st2) => syncTablesLoop tr data rest st2
          | (false, st2) => (false, st2)

/-- `sync_data_to_api_legacy` (sync.py lines 403-514): reset the session
(result ignored), then deliver the tables in declared order. -/
def sync_data_to_api_legacy (tr : Nat → Outcome) (data : List (String × List Record))
    (st : SyncState) : Bool × SyncState :=
  syncTablesLoop tr data tables_to_sync (reset_sync_session tr st).2

/-- The orchestration of `main` (sync.py lines 544-551): try the bulk
path; on failure fall back to the legacy path, once. -/
def mainSync (tr : Nat → Outcome) (data : List (String × List Record)) (ts : String) :
    Bool × SyncState :=
  if (sync_data_bulk_optimized tr data ts initState).1
  then (true, (sync_data_bulk_optimized tr data ts initState).2)
  else sync_data_to_api_legacy tr data (sync_data_bulk_optimized tr data ts initState).2

/-- The session-reset call leaves deterministic state: one reset request
appended, whatever its outcome. -/
theorem reset_state (tr : Nat → Outcome) (st : SyncState) :
    (reset_sync_session tr st).2 = ⟨st.trace ++ [Request.resetSession]⟩ := by
  unfold reset_sync_session send
  cases tr st.trace.length <;> rfl

/-- Complete characterization of the bulk path: its verdict is the
200-and-success test of the single bulk request's outcome (the request
right after its session reset), and its trace is exactly one reset
followed by exactly one bulk request. -/
theorem bulk_spec (tr : Nat → Outcome) (data : List (String × List Record)) (ts : String)
    (st : SyncState) :
    sync_data_bulk_optimized tr data ts st =
      (outcomeOk200 (tr (st.trace.length + 1)),
       ⟨st.trace ++ [Request.resetSession, Request.bulkSync (mkBulkPayload data ts)]⟩) := by
  unfold sync_data_bulk_optimized
  rw [reset_state]
  unfold send
  simp only [List.length_append, List.length_cons, List.length_nil, Nat.zero_add]
  cases h : tr (st.trace.length + 1) with
  | err => simp [outcomeOk200, h]
  | ok status success =>
    by_cases hs : status = 200 <;> simp [outcomeOk200, h, hs]

theorem attemptLoop_succ_err (tr : Nat → Outcome) (p : LegacyBatchPayload) (f : Nat)
    (st : SyncState) (h : tr st.trace.length = Outcome.err) :
    attemptLoop tr p (f + 1) st
      = attemptLoop tr p f ⟨st.trace ++ [Request.legacySync p]⟩ := by
  simp [attemptLoop, send, h]

theorem attemptLoop_succ_fail (tr : Nat → Outcome) (p : LegacyBatchPayload) (f : Nat)
    (st : SyncState) (status : Nat) (success : Bool)
    (h : tr st.trace.length = Outcome.ok status success)
    (hns : status = 200 → success = false) :
    attemptLoop tr p (f + 1) st
      = attemptLoop tr p f ⟨st.trace ++ [Request.legacySync p]⟩ := by
  by_cases hst : status = 200
  · have hsc := hns hst
    simp [attemptLoop, send, h, hst, hsc]
  · simp [attemptLoop, send, h, hst]

theorem attemptLoop_succ_ok (tr : Nat → Outcome) (p : LegacyBatchPayload) (f : Nat)
    (st : SyncState) (h : tr st.trace.length = Outcome.ok 200 true) :
    attemptLoop tr p (f + 1) st = (true, ⟨st.trace ++ [Request.legacySync p]⟩) := by
  simp [attemptLoop, send, h]

/-- The retry loop for one batch appends between 0 and `fuel` copies of
that batch's request to the trace (with positive fuel it always sends at
least once; the bound is what matters: never more than `fuel` sends). -/
theorem attemptLoop_trace (tr : Nat → Outcome) (p : LegacyBatchPayload) :
    ∀ (fuel : Nat) (st : SyncState), ∃ k, k ≤ fuel ∧
      (attemptLoop tr p fuel st).2.trace
        = st.trace ++ List.replicate k (Request.legacySync p) := by
  intro fuel
  induction fuel with
  | zero => intro st; exact ⟨0, le_rfl, by simp [attemptLoop]⟩
  | succ f ih =>
    intro st
    cases h : tr st.trace.length with
    | err =>
      obtain ⟨k, hk, h1⟩ := ih ⟨st.trace ++ [Request.legacySync p]⟩
      refine ⟨k + 1, by omega, ?_⟩
      rw [attemptLoop_succ_err tr p f st h, h1]
      simp [List.replicate_succ]
    | ok status success =>
      by_cases hok : status = 200 ∧ success = true
      · refine ⟨1, by omega, ?_⟩
        rw [attemptLoop_succ_ok tr p f st (by rw [h, hok.1, hok.2])]
        simp
      · have hns : status = 200 → success = false := by
          intro hst
          cases hsc : success
          · rfl
          · exact absurd ⟨hst, hsc⟩ hok
        obtain ⟨k, hk, h1⟩ := ih ⟨st.trace ++ [Request.legacySync p]⟩
        refine ⟨k + 1, by omega, ?_⟩
        rw [attemptLoop_succ_fail tr p f st status success h hns, h1]
        simp [List.replicate_succ]

/-- Unfolding of the per-batch loop against the head batch's attempt. -/
theorem runBatches_cons (tr : Nat → Outcome) (p : LegacyBatchPayload)
    (rest : List LegacyBatchPayload) (st : SyncState) :
    runBatches tr (p :: rest) st
      = if (attemptBatch tr p st).1
        then runBatches tr rest (attemptBatch tr p st).2
        else (false, (attemptBatch tr p st).2) := by
  rcases hab : attemptBatch tr p st with ⟨b, st2⟩
  cases b <;> simp [runBatches, hab]

/-- The per-batch loop only ever appends legacy-sync requests. -/
theorem runBatches_trace (tr : Nat → Outcome) :
    ∀ (bs : List LegacyBatchPayload) (st : SyncState), ∃ seg,
      (runBatches tr bs st).2.trace = st.trace ++ seg ∧
      ∀ r ∈ seg, isLegacyReq r = true := by
  intro bs
  induction bs with
  | nil => intro st; exact ⟨[], by simp [runBatches], by simp⟩
  | cons p rest ih =>
    intro st
    obtain ⟨k, hk, h1⟩ := attemptLoop_trace tr p 3 st
    have h1b : (attemptBatch tr p st).2.trace
        = st.trace ++ List.replicate k (Request.legacySync p) := h1
    rw [runBatches_cons]
    cases hok : (attemptBatch tr p st).1 with
    | false =>
      rw [if_neg (by simp)]
      refine ⟨List.replicate k (Request.legacySync p), h1b, ?_⟩
      intro r hr
      rw [List.eq_of_mem_replicate hr]
      rfl
    | true =>
      rw [if_pos rfl]
      obtain ⟨seg2, h2, h2m⟩ := ih (attemptBatch tr p st).2
      refine ⟨List.replicate k (Request.legacySync p) ++ seg2, ?_, ?_⟩
      · rw [h2, h1b]
        simp
      · intro r hr
        rcases List.mem_append.mp hr with hcase | hcase
        · rw [List.eq_of_mem_replicate hcase]
          rfl
        · exact h2m r hcase

theorem syncTablesLoop_cons_none (tr : Nat → Outcome) (data : List (String × List Record))
    (name : String) (rest : List String) (st : SyncState)
    (h : lookupTable data name = none) :
    syncTablesLoop tr data (name :: rest) st = syncTablesLoop tr data rest st := by
  simp [syncTablesLoop, h]

theorem syncTablesLoop_cons_empty (tr : Nat → Outcome) (data : List (String × List Record))
    (name : String) (rest : List String) (st : SyncState) (td : List Record)
    (h : lookupTable data name = some td) (he : td.isEmpty = true) :
    syncTablesLoop tr data (name :: rest) st = syncTablesLoop tr data rest st := by
  simp [syncTablesLoop, h, he]

theorem syncTablesLoop_cons_data (tr : Nat → Outcome) (data : List (String × List Record))
    (name : String) (rest : List String) (st : SyncState) (td : List Record)
    (chunks : List (List Record))
    (h : lookupTable data name = some td) (he : td.isEmpty = false)
    (hc : chunk_data td 3000 = some chunks) :
    syncTablesLoop tr data (name :: rest) st
      = if (runBatches tr (mkLegacyPayloads name chunks) st).1
        then syncTablesLoop tr data rest (runBatches tr (mkLegacyPayloads name chunks) st).2
        else (false, (runBatches tr (mkLegacyPayloads name chunks) st).2) := by
  rcases hrb : runBatches tr (mkLegacyPayloads name chunks) st with ⟨b, st2⟩
  cases b <;> simp [syncTablesLoop, h, he, hc, hrb]

/-- For the hardcoded batch size 3000 chunking always succeeds, yielding
the reference chunking. -/
theorem chunk_data_3000 (td : List Record) :
    chunk_data td 3000 = some (chunksRec 3000 td) := by
  have hp := chunk_data_pos_spec td 3000 (by norm_num)
  have he : ((3000 : Int)).toNat = 3000 := rfl
  rw [hp, he]

/-- The per-table loop only ever appends legacy-sync requests. -/
theorem syncTablesLoop_trace (tr : Nat → Outcome) (data : List (String × List Record)) :
    ∀ (names : List String) (st : SyncState), ∃ seg,
      (syncTablesLoop tr data names st).2.trace = st.trace ++ seg ∧
      ∀ r ∈ seg, isLegacyReq r = true := by
  intro names
  induction names with
  | nil => intro st; exact ⟨[], by simp [syncTablesLoop], by simp⟩
  | cons name rest ih =>
    intro st
    cases hlk : lookupTable data name with
    | none =>
      rw [syncTablesLoop_cons_none tr data name rest st hlk]
      exact ih st
    | some td =>
      cases hie : td.isEmpty with
      | true =>
        rw [syncTablesLoop_cons_empty tr data name rest st td hlk hie]
        exact ih st
      | false =>
        rw [syncTablesLoop_cons_data tr data name rest st td (chunksRec 3000 td) hlk hie
          (chunk_data_3000 td)]
        obtain ⟨seg1, h1, h1m⟩ :=
          runBatches_trace tr (mkLegacyPayloads name (chunksRec 3000 td)) st
        cases hrb : (runBatches tr (mkLegacyPayloads name (chunksRec 3000 td)) st).1 with
        | false =>
          rw [if_neg (by simp)]
          exact ⟨seg1, h1, h1m⟩
        | true =>
          rw [if_pos rfl]
          obtain ⟨seg2, h2, h2m⟩ :=
            ih (runBatches tr (mkLegacyPayloads name (chunksRec 3000 td)) st).2
          refine ⟨seg1 ++ seg2, ?_, ?_⟩
          · rw [h2, h1]
            simp
          · intro r hr
            rcases List.mem_append.mp hr with hcase | hcase
            · exact h1m r hcase
            · exact h2m r hcase

/-- The legacy path's trace: its own session reset followed by nothing but
legacy-sync requests. -/
theorem legacy_trace (tr : Nat → Outcome) (data : List (String × List Record))
    (st : SyncState) : ∃ seg,
    (sync_data_to_api_legacy tr data st).2.trace
      = st.trace ++ Request.resetSession :: seg ∧
    ∀ r ∈ seg, isLegacyReq r = true := by
  unfold sync_data_to_api_legacy
  obtain ⟨seg, h1, h2⟩ :=
    syncTablesLoop_trace tr data tables_to_sync (reset_sync_session tr st).2
  refine ⟨seg, ?_, h2⟩
  rw [h1, reset_state]
  simp

theorem legacyReq_class (r : Request) (h : isLegacyReq r = true) :
    isBulkReq r = false ∧ isResetReq r = false := by
  cases r <;> simp_all [isLegacyReq, isBulkReq, isResetReq]

theorem countP_zero_of_legacy_bulk (seg : List Request)
    (h : ∀ r ∈ seg, isLegacyReq r = true) : seg.countP isBulkReq = 0 := by
  rw [List.countP_eq_zero]
  intro r hr
  simp [(legacyReq_class r (h r hr)).1]

theorem countP_zero_of_legacy_reset (seg : List Request)
    (h : ∀ r ∈ seg, isLegacyReq r = true) : seg.countP isResetReq = 0 := by
  rw [List.countP_eq_zero]
  intro r hr
  simp [(legacyReq_class r (h r hr)).2]

/-- The retry loop's behaviour depends only on the oracle's values at the
request positions it actually uses (those at or after the current
counter). -/
theorem attemptLoop_agree (tr1 tr2 : Nat → Outcome) (p : LegacyBatchPayload) :
    ∀ (fuel : Nat) (st : SyncState),
      (∀ n, st.trace.length ≤ n → tr1 n = tr2 n) →
      attemptLoop tr1 p fuel st = attemptLoop tr2 p fuel st := by
  intro fuel
  induction fuel with
  | zero => intro st _; rfl
  | succ f ih =>
    intro st hag
    have h0 : tr1 st.trace.length = tr2 st.trace.length := hag _ le_rfl
    have hih := ih ⟨st.trace ++ [Request.legacySync p]⟩ (by
      intro n hn
      apply hag
      simp only [List.length_append, List.length_cons, List.length_nil] at hn
      omega)
    cases h : tr2 st.trace.length with
    | err =>
      rw [attemptLoop_succ_err tr1 p f st (h0.trans h),
        attemptLoop_succ_err tr2 p f st h]
      exact hih
    | ok status success =>
      by_cases hok : status = 200 ∧ success = true
      · rw [attemptLoop_succ_ok tr1 p f st (by rw [h0, h, hok.1, hok.2]),
          attemptLoop_succ_ok tr2 p f st (by rw [h, hok.1, hok.2])]
      · have hns : status = 200 → success = false := by
          intro hst
          cases hsc : success
          · rfl
          · exact absurd ⟨hst, hsc⟩ hok
        rw [attemptLoop_succ_fail tr1 p f st status success (h0.trans h) hns,
          attemptLoop_succ_fail tr2 p f st status success h hns]
        exact hih

/-- Same invariance for the per-batch loop. -/
theorem runBatches_agree (tr1 tr2 : Nat → Outcome) :
    ∀ (bs : List LegacyBatchPayload) (st : SyncState),
      (∀ n, st.trace.length ≤ n → tr1 n = tr2 n) →
      runBatches tr1 bs st = runBatches tr2 bs st := by
  intro bs
  induction bs with
  | nil => intro st _; rfl
  | cons p rest ih =>
    intro st hag
    have hA : attemptBatch tr1 p st = attemptBatch tr2 p st :=
      attemptLoop_agree tr1 tr2 p 3 st hag
    rw [runBatches_cons, runBatches_cons, hA]
    obtain ⟨k, hk, htr⟩ := attemptLoop_trace tr2 p 3 st
    have hlen : st.trace.length ≤ (attemptBatch tr2 p st).2.trace.length := by
      rw [show (attemptBatch tr2 p st).2.trace
          = st.trace ++ List.replicate k (Request.legacySync p) from htr]
      simp
    cases hok : (attemptBatch tr2 p st).1 with
    | false => rfl
    | true =>
      rw [if_pos rfl, if_pos rfl]
      exact ih (attemptBatch tr2 p st).2 (fun n hn => hag n (le_trans hlen hn))

/-- Same invariance for the per-table loop. -/
theorem syncTablesLoop_agree (tr1 tr2 : Nat → Outcome) (data : List (String × List Record)) :
    ∀ (names : List String) (st : SyncState),
      (∀ n, st.trace.length ≤ n → tr1 n = tr2 n) →
      syncTablesLoop tr1 data names st = syncTablesLoop tr2 data names st := by
  intro names
  induction names with
  | nil => intro st _; rfl
  | cons name rest ih =>
    intro st hag
    cases hlk : lookupTable data name with
    | none =>
      rw [syncTablesLoop_cons_none tr1 data name rest st hlk,
        syncTablesLoop_cons_none tr2 data name rest st hlk]
      exact ih st hag
    | some td =>
      cases hie : td.isEmpty with
      | true =>
        rw [syncTablesLoop_cons_empty tr1 data name rest st td hlk hie,
          syncTablesLoop_cons_empty tr2 data name rest st td hlk hie]
        exact ih st hag
      | false =>
        rw [syncTablesLoop_cons_data tr1 data name rest st td (chunksRec 3000 td) hlk hie
            (chunk_data_3000 td),
          syncTablesLoop_cons_data tr2 data name rest st td (chunksRec 3000 td) hlk hie
            (chunk_data_3000 td)]
        have hR : runBatches tr1 (mkLegacyPayloads name (chunksRec 3000 td)) st
            = runBatches tr2 (mkLegacyPayloads name (chunksRec 3000 td)) st :=
          runBatches_agree tr1 tr2 (mkLegacyPayloads name (chunksRec 3000 td)) st hag
        rw [hR]
        obtain ⟨seg, htr, _⟩ :=
          runBatches_trace tr2 (mkLegacyPayloads name (chunksRec 3000 td)) st
        have hlen : st.trace.length
            ≤ (runBatches tr2 (mkLegacyPayloads name (chunksRec 3000 td)) st).2.trace.length := by
          rw [htr]; simp
        cases hok : (runBatches tr2 (mkLegacyPayloads name (chunksRec 3000 td)) st).1 with
        | false => rfl
        | true =>
          rw [if_pos rfl, if_pos rfl]
          exact ih _ (fun n hn => hag n (le_trans hlen hn))

/-- The legacy path ignores the outcome of its own session reset (the
request at the current counter): its result is invariant under any change
of the oracle at that position. -/
theorem legacy_agree (tr1 tr2 : Nat → Outcome) (data : List (String × List Record))
    (st : SyncState) (hag : ∀ n, st.trace.length + 1 ≤ n → tr1 n = tr2 n) :
    sync_data_to_api_legacy tr1 data st = sync_data_to_api_legacy tr2 data st := by
  unfold sync_data_to_api_legacy
  rw [reset_state tr1 st, reset_state tr2 st]
  apply syncTablesLoop_agree
  intro n hn
  apply hag
  simp only [List.length_append, List.length_cons, List.length_nil] at hn
  omega

/- ---------------------------------------------------------------------
Claim theorems
--------------------------------------------------------------------- -/

/-- C4: for every record list R and chunk size S > 0, concatenating the
chunks of `chunk_data R S` in order yields exactly R, the number of
chunks is the ceiling of len(R)/S, every chunk except possibly the last
has length exactly S, and every chunk (in particular the last, when R is
non-empty) has length between 1 and S. -/
theorem C4_chunk_exact (l : List α) (S : Int) (hS : 0 < S) :
    ∃ chunks, chunk_data l S = some chunks ∧
      chunks.flatten = l ∧
      chunks.length = (l.length + S.toNat - 1) / S.toNat ∧
      (∀ c ∈ chunks.dropLast, c.length = S.toNat) ∧
      (∀ c ∈ chunks, 1 ≤ c.length ∧ c.length ≤ S.toNat) := by
  have hs : 0 < S.toNat := by omega
  exact ⟨chunksRec S.toNat l, chunk_data_pos_spec l S hS,
    chunksRec_join S.toNat hs l, chunksRec_length S.toNat hs l,
    chunksRec_dropLast_length S.toNat hs l, chunksRec_mem_length S.toNat hs l⟩

/-- C4 witness: the properties evaluated at the concrete list [1,2,3] with
chunk size 2. -/
theorem C4_chunk_exact_witness :
    (0 : Int) < 2 ∧
    (∃ chunks, chunk_data ([1, 2, 3] : List Nat) (2 : Int) = some chunks ∧
      chunks.flatten = [1, 2, 3] ∧
      chunks.length = (([1, 2, 3] : List Nat).length + (2 : Int).toNat - 1) / (2 : Int).toNat ∧
      (∀ c ∈ chunks.dropLast, c.length = (2 : Int).toNat) ∧
      (∀ c ∈ chunks, 1 ≤ c.length ∧ c.length ≤ (2 : Int).toNat)) :=
  ⟨by decide, C4_chunk_exact [1, 2, 3] 2 (by decide)⟩

/-- C9 counterexample: with chunk size -1 (≤ 0) and a non-empty input the
batching engine does not fail; it silently returns no chunks, contrary to
the claim that every size ≤ 0 is treated as a fatal configuration
error. -/
theorem C9_counterexample :
    chunk_data ([0] : List Nat) (-1) = some [] ∧
    chunk_data ([0] : List Nat) (-1) ≠ none := by
  have h := chunk_data_neg ([0] : List Nat) (-1) (by norm_num)
  exact ⟨h, by rw [h]; simp⟩

/-- C9 amended: only chunk size 0 makes the engine fail (the underlying
range raises when iterated, modelled as `none`); a negative chunk size
silently yields no chunks at all.  The engine itself performs no network
activity in either case. -/
theorem C9_zero_neg_sizes (l : List α) (s : Int) :
    chunk_data l 0 = none ∧
    (if s < 0 then chunk_data l s = some [] else True) := by
  refine ⟨chunk_data_zero l, ?_⟩
  by_cases hs : s < 0
  · rw [if_pos hs]
    exact chunk_data_neg l s hs
  · rw [if_neg hs]
    trivial

/-- C5 counterexample: at 1000 total records the code's timeout is
max(300, 10) = 300, not the claimed 300 + 10 per 1000 records = 310; the
timeout does not grow on top of the 300 floor until the scaled term
itself exceeds 300. -/
theorem C5_counterexample :
    timeoutFor 1000 = 300 ∧ timeoutFor 1000 ≠ 300 + 10 * (1000 / 1000) := by
  decide

/-- C5 amended: the bulk timeout is the maximum of the 300 floor and
10 per 1000 records: never below 300, monotone in the record count, equal
to the flat floor of 300 below 31000 records, and from 31000 records on
growing by exactly 10 per additional 1000 records. -/
theorem C5_timeout_max (N : Nat) :
    timeoutFor N = max 300 (N / 1000 * 10) ∧
    300 ≤ timeoutFor N ∧
    timeoutFor N ≤ timeoutFor (N + 1000) ∧
    (if 31000 ≤ N then timeoutFor (N + 1000) = timeoutFor N + 10
     else timeoutFor N = 300) := by
  refine ⟨rfl, ?_, ?_, ?_⟩
  · unfold timeoutFor
    omega
  · unfold timeoutFor
    have h : (N + 1000) / 1000 = N / 1000 + 1 := by omega
    rw [h]
    omega
  · by_cases h31 : 31000 ≤ N
    · rw [if_pos h31]
      unfold timeoutFor
      have h1 : 31 ≤ N / 1000 := by omega
      have h2 : (N + 1000) / 1000 = N / 1000 + 1 := by omega
      rw [h2]
      omega
    · rw [if_neg h31]
      unfold timeoutFor
      have h1 : N / 1000 ≤ 30 := by omega
      omega

/-- C6: the bulk payload's total_records field equals the sum of the
per-table record-list lengths, and the equality survives JSON encoding:
the encoded document's total_records member is that same sum, and
recounting the encoded per-table record arrays gives that same sum
again. -/
theorem C6_total_records (data : List (String × List Record)) (ts : String) :
    (mkBulkPayload data ts).total_records = (data.map (fun p => p.2.length)).sum ∧
    jsonField (encodePayload (mkBulkPayload data ts)) "total_records"
      = some (Json.num (((data.map (fun p => p.2.length)).sum : Nat) : ℚ)) ∧
    jsonTablesRecordTotal (encodePayload (mkBulkPayload data ts))
      = some ((data.map (fun p => p.2.length)).sum) := by
  refine ⟨rfl, ?_, ?_⟩
  · simp [encodePayload, jsonField, jsonLookup, mkBulkPayload, totalRecords]
  · have hmap : List.map ((fun p => jsonArrLen p.2)
          ∘ (fun p : String × List Record => (p.1, Json.arr (List.map encodeRecord p.2)))) data
        = List.map (fun p => p.2.length) data :=
      List.map_congr_left (fun p _ => by simp [Function.comp, jsonArrLen])
    show some ((List.map (fun p => jsonArrLen p.2)
        (List.map (fun p => (p.1, Json.arr (List.map encodeRecord p.2))) data)).sum)
      = some ((data.map (fun p => p.2.length)).sum)
    rw [List.map_map, hmap]

/-- C1 counterexample: a completed bulk request with the 2xx status 201
and success flag true — accepted by the claim's "2xx" criterion — is
nevertheless a failure of the bulk attempt, because the code tests the
status for equality with 200 (sync.py line 334), not for membership in
2xx. -/
theorem C1_counterexample :
    (sync_data_bulk_optimized (fun _ => Outcome.ok 201 true) [] "t" initState).1 = false ∧
    outcomeOk2xx (Outcome.ok 201 true) = true := by
  exact ⟨rfl, rfl⟩

/-- C1 amended: the bulk attempt succeeds iff its single bulk request (the
request right after its session reset) completes with status exactly 200
and a true success flag; every other outcome — transport error, any
status other than 200 (2xx included), or success-flag false — yields
failure, and exactly one request ever reaches the bulk endpoint. -/
theorem C1_bulk_exact_200 (tr : Nat → Outcome) (data : List (String × List Record))
    (ts : String) (st : SyncState) :
    (sync_data_bulk_optimized tr data ts st).1 = outcomeOk200 (tr (st.trace.length + 1)) ∧
    (sync_data_bulk_optimized tr data ts st).2.trace.countP isBulkReq
      = st.trace.countP isBulkReq + 1 := by
  rw [bulk_spec]
  refine ⟨rfl, ?_⟩
  simp [List.countP_append, List.countP_cons, isBulkReq]

/-- C2: over the whole run, exactly one request ever reaches the bulk
endpoint (the bulk attempt is never retried); the run is exactly the bulk
attempt followed — only when the bulk verdict is false — by a single
legacy invocation (witnessed by the session-reset count: one reset when
bulk succeeds, two when the legacy path runs); and the bulk attempt
itself issues no legacy requests, so a successful bulk run performs no
legacy call at all. -/
theorem C2_fallback_once (tr : Nat → Outcome) (data : List (String × List Record))
    (ts : String) :
    (mainSync tr data ts).2.trace.countP isBulkReq = 1 ∧
    mainSync tr data ts
      = (if (sync_data_bulk_optimized tr data ts initState).1
         then (true, (sync_data_bulk_optimized tr data ts initState).2)
         else sync_data_to_api_legacy tr data (sync_data_bulk_optimized tr data ts initState).2) ∧
    (mainSync tr data ts).2.trace.countP isResetReq
      = (if (sync_data_bulk_optimized tr data ts initState).1 then 1 else 2) ∧
    (sync_data_bulk_optimized tr data ts initState).2.trace.countP isLegacyReq = 0 := by
  have hb := bulk_spec tr data ts initState
  have hbt : (sync_data_bulk_optimized tr data ts initState).2.trace
      = [Request.resetSession, Request.bulkSync (mkBulkPayload data ts)] := by
    rw [hb]
    rfl
  refine ⟨?_, rfl, ?_, ?_⟩
  · unfold mainSync
    cases hx : (sync_data_bulk_optimized tr data ts initState).1 with
    | true =>
      rw [if_pos rfl]
      show (sync_data_bulk_optimized tr data ts initState).2.trace.countP isBulkReq = 1
      rw [hbt]
      rfl
    | false =>
      rw [if_neg (by simp)]
      obtain ⟨seg, htr, hsl⟩ :=
        legacy_trace tr data (sync_data_bulk_optimized tr data ts initState).2
      rw [htr, hbt]
      simp [List.countP_append, List.countP_cons, isBulkReq,
        countP_zero_of_legacy_bulk seg hsl]
  · unfold mainSync
    cases hx : (sync_data_bulk_optimized tr data ts initState).1 with
    | true =>
      rw [if_pos rfl, if_pos rfl]
      show (sync_data_bulk_optimized tr data ts initState).2.trace.countP isResetReq = 1
      rw [hbt]
      rfl
    | false =>
      rw [if_neg (by simp), if_neg (by simp)]
      obtain ⟨seg, htr, hsl⟩ :=
        legacy_trace tr data (sync_data_bulk_optimized tr data ts initState).2
      rw [htr, hbt]
      simp [List.countP_append, List.countP_cons, isResetReq,
        countP_zero_of_legacy_reset seg hsl]
  · rw [hbt]
    rfl

/-- C3: in the legacy path (i) one batch's delivery loop issues at most 3
requests, all of them for that batch — no batch is ever attempted a 4th
time; (ii) when a batch's 3 attempts are exhausted (whatever mix of
transport errors, non-200 statuses, and success-false rejections consumed
them), the batch loop returns failure at once, with the state exactly as
the failed attempts left it, so none of the table's later batches issues
a request; and (iii) when a table's batch loop fails, the per-table loop
returns failure at once with that same state, so no later table in the
declared order is attempted. -/
theorem C3_retry_fail_fast (tr : Nat → Outcome) (p : LegacyBatchPayload) (st : SyncState)
    (rest : List LegacyBatchPayload) (data : List (String × List Record))
    (name : String) (names : List String) (tdata : List Record)
    (chunks : List (List Record)) :
    (∃ seg, (attemptBatch tr p st).2.trace = st.trace ++ seg ∧ seg.length ≤ 3 ∧
      ∀ r ∈ seg, r = Request.legacySync p) ∧
    ((attemptBatch tr p st).1 = false →
      runBatches tr (p :: rest) st = (false, (attemptBatch tr p st).2)) ∧
    (lookupTable data name = some tdata → tdata.isEmpty = false →
      chunk_data tdata (3000 : Int) = some chunks →
      (runBatches tr (mkLegacyPayloads name chunks) st).1 = false →
      syncTablesLoop tr data (name :: names) st
        = (false, (runBatches tr (mkLegacyPayloads name chunks) st).2)) := by
  refine ⟨?_, ?_, ?_⟩
  · obtain ⟨k, hk, htr⟩ := attemptLoop_trace tr p 3 st
    refine ⟨List.replicate k (Request.legacySync p), htr, by simp [hk], ?_⟩
    intro r hr
    exact List.eq_of_mem_replicate hr
  · intro hfail
    rw [runBatches_cons, if_neg (by simp [hfail])]
  · intro hlk hie hc hfail
    rw [syncTablesLoop_cons_data tr data name names st tdata chunks hlk hie hc,
      if_neg (by simp [hfail])]

/-- C3 witness: a transport that always errors exhausts the 3 attempts of
the single batch of a one-record table, aborting both the batch loop and
the table loop immediately. -/
theorem C3_retry_fail_fast_witness :
    (∃ seg,
      (attemptBatch (fun _ => Outcome.err)
          ⟨"safa", "acc_users", [], true, true⟩ initState).2.trace
        = initState.trace ++ seg ∧ seg.length ≤ 3 ∧
      ∀ r ∈ seg, r = Request.legacySync ⟨"safa", "acc_users", [], true, true⟩) ∧
    ((attemptBatch (fun _ => Outcome.err)
        ⟨"safa", "acc_users", [], true, true⟩ initState).1 = false ∧
      runBatches (fun _ => Outcome.err)
          [⟨"safa", "acc_users", [], true, true⟩, ⟨"safa", "acc_users", [], true, true⟩]
          initState
        = (false, (attemptBatch (fun _ => Outcome.err)
            ⟨"safa", "acc_users", [], true, true⟩ initState).2)) ∧
    (lookupTable [("acc_users", [([] : Record)])] "acc_users" = some [([] : Record)] ∧
      ([([] : Record)] : List Record).isEmpty = false ∧
      chunk_data ([([] : Record)] : List Record) (3000 : Int) = some [[([] : Record)]] ∧
      (runBatches (fun _ => Outcome.err)
          (mkLegacyPayloads "acc_users" [[([] : Record)]]) initState).1 = false ∧
      syncTablesLoop (fun _ => Outcome.err) [("acc_users", [([] : Record)])]
          ("acc_users" :: ["personel"]) initState
        = (false, (runBatches (fun _ => Outcome.err)
            (mkLegacyPayloads "acc_users" [[([] : Record)]]) initState).2)) :=
  ⟨(C3_retry_fail_fast (fun _ => Outcome.err) ⟨"safa", "acc_users", [], true, true⟩
      initState [⟨"safa", "acc_users", [], true, true⟩] [("acc_users", [([] : Record)])]
      "acc_users" ["personel"] [([] : Record)] [[([] : Record)]]).1,
   ⟨by decide,
    (C3_retry_fail_fast (fun _ => Outcome.err) ⟨"safa", "acc_users", [], true, true⟩
      initState [⟨"safa", "acc_users", [], true, true⟩] [("acc_users", [([] : Record)])]
      "acc_users" ["personel"] [([] : Record)] [[([] : Record)]]).2.1 (by decide)⟩,
   ⟨by decide, by decide, by decide, by decide,
    (C3_retry_fail_fast (fun _ => Outcome.err) ⟨"safa", "acc_users", [], true, true⟩
      initState [⟨"safa", "acc_users", [], true, true⟩] [("acc_users", [([] : Record)])]
      "acc_users" ["personel"] [([] : Record)] [[([] : Record)]]).2.2
      (by decide) (by decide) (by decide) (by decide)⟩⟩

/-- C7: a table with an empty record list is still carried (as its name
paired with the empty list) in the bulk payload's tables mapping, while
the legacy per-table loop skips it entirely: the loop on that table is
the loop on the remaining tables, so no request is issued for it and it
can never turn the legacy verdict into failure. -/
theorem C7_empty_table (name : String) (data : List (String × List Record)) (ts : String)
    (tr : Nat → Outcome) (rest : List String) (st : SyncState)
    (hmem : (name, ([] : List Record)) ∈ data)
    (hlk : lookupTable data name = some []) :
    (name, ([] : List Record)) ∈ (mkBulkPayload data ts).tables ∧
    syncTablesLoop tr data (name :: rest) st = syncTablesLoop tr data rest st :=
  ⟨hmem, syncTablesLoop_cons_empty tr data name rest st [] hlk rfl⟩

/-- C7 witness: the empty table mag_subject is in the bulk payload and is
skipped by the legacy loop. -/
theorem C7_empty_table_witness :
    ((("mag_subject", ([] : List Record))
        ∈ ([("mag_subject", ([] : List Record))] : List (String × List Record))) ∧
      lookupTable [("mag_subject", ([] : List Record))] "mag_subject" = some []) ∧
    (("mag_subject", ([] : List Record))
        ∈ (mkBulkPayload [("mag_subject", ([] : List Record))] "t").tables ∧
      syncTablesLoop (fun _ => Outcome.err) [("mag_subject", ([] : List Record))]
          ("mag_subject" :: []) initState
        = syncTablesLoop (fun _ => Outcome.err) [("mag_subject", ([] : List Record))]
            [] initState) :=
  ⟨⟨by decide, by decide⟩,
   C7_empty_table "mag_subject" [("mag_subject", ([] : List Record))] "t"
     (fun _ => Outcome.err) [] initState (by decide) (by decide)⟩

/-- C8: the session-reset outcomes are the requests numbered 0 (before the
bulk attempt) and 2 (before the legacy attempt); two transports that can
differ arbitrarily at those two positions — reset succeeded, failed with
any status, or raised — give the run the same final verdict, and the bulk
request is issued in every run regardless. -/
theorem C8_reset_nonfatal (tr1 tr2 : Nat → Outcome) (data : List (String × List Record))
    (ts : String)
    (hag : ∀ n, n ≠ 0 → n ≠ 2 → tr1 n = tr2 n) :
    (mainSync tr1 data ts).1 = (mainSync tr2 data ts).1 ∧
    Request.bulkSync (mkBulkPayload data ts) ∈ (mainSync tr1 data ts).2.trace := by
  have h1 : tr1 (initState.trace.length + 1) = tr2 (initState.trace.length + 1) :=
    hag _ (by decide) (by decide)
  have hb1 := bulk_spec tr1 data ts initState
  have hb2 := bulk_spec tr2 data ts initState
  unfold mainSync
  rw [hb1, hb2, h1]
  cases hx : outcomeOk200 (tr2 (initState.trace.length + 1)) with
  | true =>
    rw [if_pos rfl, if_pos rfl]
    exact ⟨rfl, by simp [initState]⟩
  | false =>
    rw [if_neg (by simp), if_neg (by simp)]
    constructor
    · have hleg := legacy_agree tr1 tr2 data
        ⟨initState.trace ++ [Request.resetSession, Request.bulkSync (mkBulkPayload data ts)]⟩
        (by
          intro n hn
          simp only [initState, List.length_append, List.length_cons, List.length_nil] at hn
          exact hag n (by omega) (by omega))
      rw [hleg]
    · obtain ⟨seg, htr, _⟩ := legacy_trace tr1 data
        ⟨initState.trace ++ [Request.resetSession, Request.bulkSync (mkBulkPayload data ts)]⟩
      rw [htr]
      simp [initState]

/-- C8 witness: two identical transports trivially agree away from the
reset positions; the verdicts agree and the bulk request is in the
trace. -/
theorem C8_reset_nonfatal_witness :
    (∀ n : Nat, n ≠ 0 → n ≠ 2 →
      (fun _ => Outcome.err) n = (fun _ => Outcome.err) n) ∧
    ((mainSync (fun _ => Outcome.err) [] "t").1
        = (mainSync (fun _ => Outcome.err) [] "t").1 ∧
      Request.bulkSync (mkBulkPayload [] "t")
        ∈ (mainSync (fun _ => Outcome.err) [] "t").2.trace) :=
  ⟨fun _ _ _ => rfl,
   C8_reset_nonfatal (fun _ => Outcome.err) (fun _ => Outcome.err) [] "t"
     (fun _ _ _ => rfl)⟩

/-- C10: for a table with N > 0 records, the legacy path produces
k = ceil(N/3000) batch payloads; down that list the first-batch flag is
true exactly at 1-based index 1 and the last-batch flag is true exactly
at 1-based index k (read off the flag sequences); and with N ≤ 3000 there
is a single batch, which therefore carries both flags true at once. -/
theorem C10_batch_flags (name : String) (records : List Record) (hne : records ≠ []) :
    ∃ chunks, chunk_data records (3000 : Int) = some chunks ∧
      (mkLegacyPayloads name chunks).length = (records.length + 2999) / 3000 ∧
      (mkLegacyPayloads name chunks).map (fun b => b.is_first_batch)
        = true :: List.replicate ((mkLegacyPayloads name chunks).length - 1) false ∧
      (mkLegacyPayloads name chunks).map (fun b => b.is_last_batch)
        = List.replicate ((mkLegacyPayloads name chunks).length - 1) false ++ [true] ∧
      (if records.length ≤ 3000 then (mkLegacyPayloads name chunks).length = 1
       else True) := by
  have hpos : 0 < records.length := List.length_pos.mpr hne
  have hcne : chunksRec 3000 records ≠ [] := chunksRec_ne_nil 3000 records (by omega) hne
  have hclen : (chunksRec 3000 records).length = (records.length + 3000 - 1) / 3000 :=
    chunksRec_length 3000 (by omega) records
  have hplen : (mkLegacyPayloads name (chunksRec 3000 records)).length
      = (chunksRec 3000 records).length := mkLegacyPayloads_length name _
  refine ⟨chunksRec 3000 records, chunk_data_3000 records, ?_, ?_, ?_, ?_⟩
  · rw [hplen, hclen]
    have he : records.length + 3000 - 1 = records.length + 2999 := by omega
    rw [he]
  · rw [hplen]
    exact mkLegacyPayloads_first name (chunksRec 3000 records) hcne
  · rw [hplen]
    exact mkLegacyPayloads_last name (chunksRec 3000 records) hcne
  · by_cases h3 : records.length ≤ 3000
    · rw [if_pos h3, hplen, hclen]
      omega
    · rw [if_neg h3]
      trivial

/-- C10 witness: a one-record table yields a single batch with both
positional flags set. -/
theorem C10_batch_flags_witness :
    (([([] : Record)] : List Record) ≠ []) ∧
    (∃ chunks, chunk_data ([([] : Record)] : List Record) (3000 : Int) = some chunks ∧
      (mkLegacyPayloads "cce_entry" chunks).length
        = (([([] : Record)] : List Record).length + 2999) / 3000 ∧
      (mkLegacyPayloads "cce_entry" chunks).map (fun b => b.is_first_batch)
        = true :: List.replicate ((mkLegacyPayloads "cce_entry" chunks).length - 1) false ∧
      (mkLegacyPayloads "cce_entry" chunks).map (fun b => b.is_last_batch)
        = List.replicate ((mkLegacyPayloads "cce_entry" chunks).length - 1) false ++ [true] ∧
      (if ([([] : Record)] : List Record).length ≤ 3000
       then (mkLegacyPayloads "cce_entry" chunks).length = 1 else True)) :=
  ⟨by decide, C10_batch_flags "cce_entry" [([] : Record)] (by decide)⟩
